import Mathlib

/-!
Verification of the section-detection and relevance-filtering pipeline of the
engineering-paper summarizer.

The development shallowly embeds the Python sources:
  * `src/engpapersumm/utils/text.py`       (`chunk_text`)
  * `src/engpapersumm/extractors/section.py` (`detect_sections`)
  * `src/engpapersumm/processors/topic.py` (`compute_topic_similarity`,
    `filter_irrelevant_sections`)
  * `src/engpapersumm/processors/coherence.py` (`ensure_content_coherence`)
  * `src/engpapersumm/processors/validation.py` (`validate_content_against_title`)

Modelling conventions:
  * Text is a `List Char` (`Chars`); Python string slicing becomes
    `drop`/`take`, which agrees with the clamping behaviour of Python for
    non-negative indices.
  * Python floats are modelled as rationals (`ℚ`).  All numeric literals
    appearing in the code (`0.3`, `0.25`, `0.75`, `0.8`, thresholds) are exact
    or, for `0.8` used only for slice positions, agree with the float value on
    all realistic text lengths.
  * The external collaborators named by the design (the TF-IDF/cosine
    vector-similarity utility and the generative-text service) are passed in
    as function parameters; a failing call is an `Except.error`.
  * The regex machinery of `detect_sections` is embedded as an explicit
    backtracking matcher specialised to the patterns occurring in the source,
    with the configured section-title patterns interpreted as literal
    (case-insensitive) words.  Preference order of the matcher follows the
    Python `re` engine: alternatives left to right, greedy `\s*`/`\d+` with
    backtracking, lazy `.*?`, leftmost match, non-overlapping scan.
-/

abbrev Chars := List Char

/-- The paragraph separator `"\n\n"` used by `chunk_text`. -/
def nlnl : Chars := '\n' :: '\n' :: []

/-- A detected paper section.  Mirrors the dictionaries used by the Python
code: `title` and `content` are set at detection time, the two optional
annotations are attached later by `filter_irrelevant_sections`
(`topic_similarity`) and `validate_content_against_title`
(`title_relevance`). -/
structure Section where
  title : Chars
  content : Chars
  topic_similarity : Option ℚ := none
  title_relevance : Option ℚ := none
deriving DecidableEq, Repr

/-! ### `utils/text.py`: `chunk_text` -/

/-- Position of the first occurrence of `"\n\n"`, if any. -/
def findNlNl : Chars → Option Nat
  | [] => none
  | c :: rest =>
    if c = '\n' ∧ rest.head? = some '\n' then some 0
    else (findNlNl rest).map (· + 1)

/-- Python `text.split("\n\n")`: split on non-overlapping occurrences of the
separator, left to right.  Fuelled recursion; `text.length + 1` fuel always
suffices since every step consumes at least two characters. -/
def splitOnNlNl : Nat → Chars → List Chars
  | 0, s => [s]
  | fuel+1, s =>
    match findNlNl s with
    | none => [s]
    | some k => s.take k :: splitOnNlNl fuel (s.drop (k+2))

/-- The accumulation loop of `chunk_text`: for each paragraph `p`, if
`len(current) + len(p) > max_chars` then flush `current` (possibly empty)
and reset; in all cases append `p ++ "\n\n"` to `current`; finally flush a
non-empty `current`. -/
def chunkLoop (m : Nat) : List Chars → Chars → List Chars
  | [], cur => if cur.isEmpty then [] else [cur]
  | p :: ps, cur =>
    if m < cur.length + p.length then
      cur :: chunkLoop m ps (p ++ nlnl)
    else
      chunkLoop m ps (cur ++ p ++ nlnl)

/-- Function `chunk_text` from `utils/text.py`: break text into chunks by whole
paragraphs (paragraphs are delimited by a blank line). -/
def chunk_text (text : Chars) (maxChars : Nat) : List Chars :=
  chunkLoop maxChars (splitOnNlNl (text.length + 1) text) []

/-- Length of the longest blank-line-delimited paragraph of `text`. -/
def paraMax (text : Chars) : Nat :=
  ((splitOnNlNl (text.length + 1) text).map List.length).foldr max 0

/-! ### The specialised regex matcher for `extractors/section.py`

The combined primary pattern built by `detect_sections` is
`(?:^|\n\s*\n)(\d+\.\s*(?:W1|...|Wk)|(?:W1|...|Wk))(?:\s*\n)` compiled with
`re.IGNORECASE`, where `W1,...,Wk` are the configured section-title patterns,
here interpreted as literal words.  Candidate consumed-lengths are produced in
exactly the preference order the `re` engine explores them. -/

/-- Python `\s` (the ASCII whitespace class; all texts considered are ASCII). -/
def isPySpace (c : Char) : Bool :=
  c == ' ' || c == '\t' || c == '\n' || c == '\r' || c == '\x0b' || c == '\x0c'

/-- Python `\d` (ASCII digits). -/
def isPyDigit (c : Char) : Bool := '0' ≤ c && c ≤ '9'

/-- Case-insensitive literal match of `w` against the head of `s`. -/
def matchLitCI : Chars → Chars → Bool
  | [], _ => true
  | _ :: _, [] => false
  | p :: ps, c :: cs => (p.toLower == c.toLower) && matchLitCI ps cs

/-- Length of the maximal whitespace run at the head of `s`. -/
def wsRun : Chars → Nat
  | c :: cs => if isPySpace c then wsRun cs + 1 else 0
  | [] => 0

/-- Length of the maximal digit run at the head of `s`. -/
def digRun : Chars → Nat
  | c :: cs => if isPyDigit c then digRun cs + 1 else 0
  | [] => 0

/-- The list `[n, n-1, ..., 0]`: the greedy exploration order for a starred
subpattern whose maximal extent is `n`. -/
def countdown : Nat → List Nat
  | 0 => [0]
  | n+1 => (n+1) :: countdown n

/-- Consumed-length candidates for `\n\s*\n` at the head of `s`, greediest
first. -/
def nlWsNlCands (s : Chars) : List Nat :=
  match s with
  | '\n' :: rest =>
    (countdown (wsRun rest)).filterMap fun k =>
      if rest.get? k == some '\n' then some (k + 2) else none
  | _ => []

/-- Consumed-length candidates for the anchor alternation `(?:^|\n\s*\n)` at
position `pos`: the zero-width `^` first (only at position 0), then the
blank-line alternative. -/
def startCands (pos : Nat) (s : Chars) : List Nat :=
  (if pos == 0 then [0] else []) ++ nlWsNlCands s

/-- Consumed-length candidates for the word alternation `(?:W1|...|Wk)`, in
pattern order.  When the configured pattern list is empty, Python builds
`(?:)`, which matches the empty string. -/
def wordAltCands (ws : List Chars) (s : Chars) : List Nat :=
  match ws with
  | [] => [0]
  | _ => ws.filterMap fun w => if matchLitCI w s then some w.length else none

/-- Consumed-length candidates for `\d+\.\s*(?:W1|...|Wk)`, in backtracking
order (greedy `\d+`, then greedy `\s*`, then the word alternation). -/
def alt1Cands (ws : List Chars) (s : Chars) : List Nat :=
  (countdown (digRun s)).flatMap fun d =>
    if d == 0 then []
    else if s.get? d == some '.' then
      (countdown (wsRun (s.drop (d+1)))).flatMap fun k =>
        (wordAltCands ws ((s.drop (d+1)).drop k)).map fun m => d + 1 + k + m
    else []

/-- Consumed-length candidates for capture group 1 of the combined pattern:
the numbered alternative first, then the bare word alternation. -/
def groupCands (ws : List Chars) (s : Chars) : List Nat :=
  alt1Cands ws s ++ wordAltCands ws s

/-- All consumed-length candidates for `\s*\n` at the head of `s`, greediest
first. -/
def wsNlCandsAll (s : Chars) : List Nat :=
  (countdown (wsRun s)).filterMap fun k =>
    if s.get? k == some '\n' then some (k + 1) else none

/-- The trailing `(?:\s*\n)` of the combined pattern: nothing follows it, so
the greediest candidate wins. -/
def wsNlMatch (s : Chars) : Option Nat :=
  (wsNlCandsAll s).head?

/-- Attempt the combined primary pattern at position `pos` (suffix `s`).
Returns the consumed lengths `(anchor, group, trailer)` of the first
successful split in engine order. -/
def attemptAt (ws : List Chars) (pos : Nat) (s : Chars) : Option (Nat × Nat × Nat) :=
  (startCands pos s).findSome? fun p =>
    (groupCands ws (s.drop p)).findSome? fun g =>
      match wsNlMatch ((s.drop p).drop g) with
      | some t => some (p, g, t)
      | none => none

/-- A regex match: overall span `[mstart, mend)` and the capture of group 1. -/
structure RMatch where
  mstart : Nat
  mend : Nat
  g1 : Chars
deriving DecidableEq, Repr

/-- Scan for non-overlapping matches left to right (`re.finditer`): try every
position, and resume after the end of each match.  Every match consumes at
least one character (the trailing `\n`), so fuel `text.length + 1` always
suffices. -/
def scanAux (ws : List Chars) : Nat → Nat → Chars → List RMatch
  | 0, _, _ => []
  | fuel+1, pos, s =>
    match attemptAt ws pos s with
    | some (p, g, t) =>
      { mstart := pos, mend := pos + p + g + t, g1 := (s.drop p).take g }
        :: scanAux ws fuel (pos + p + g + t) (s.drop (p + g + t))
    | none =>
      match s with
      | [] => []
      | _ :: rest => scanAux ws fuel (pos + 1) rest

/-- All matches of the combined primary pattern in `text`. -/
def pyFinditer (ws : List Chars) (text : Chars) : List RMatch :=
  scanAux ws (text.length + 1) 0 text

/-- The proximity filter of `detect_sections`: accept a match when
`match.start() - last_end > 1000 or last_end == 0`, updating `last_end` to the
end of the accepted match. -/
def filterMatches : List RMatch → Nat → List RMatch
  | [], _ => []
  | m :: ms, lastEnd =>
    if lastEnd == 0 || 1000 < m.mstart - lastEnd then
      m :: filterMatches ms m.mend
    else
      filterMatches ms lastEnd

/-- The substitution `re.sub` of the anchored pattern `^\d+\.\s*` by the empty
string: strip a leading ordinal (digits, a dot and following whitespace) if
present. -/
def stripLeadingNumbering (s : Chars) : Chars :=
  let d := digRun s
  if 1 ≤ d ∧ s.get? d = some '.' then
    (s.drop (d+1)).drop (wsRun (s.drop (d+1)))
  else s

/-- Python `str.strip()` (whitespace from both ends). -/
def pyStrip (s : Chars) : Chars :=
  ((((s.drop (wsRun s)).reverse).drop (wsRun ((s.drop (wsRun s)).reverse))).reverse)

/-- Python `str.capitalize()`: first character uppercased, the rest
lowercased. -/
def pyCapitalize : Chars → Chars
  | [] => []
  | c :: cs => c.toUpper :: cs.map Char.toLower

/-! ### `detect_sections`: primary tier -/

/-- Build the primary-tier sections from the filtered matches: the title is
group 1 if non-empty, else the whole match span, then ordinal-stripped,
stripped and capitalized; the content runs from the match end to the next
accepted match start (or end of text), stripped; sections whose content is
not longer than 200 characters are dropped. -/
def buildPrimary (text : Chars) (fm : List RMatch) : List Section :=
  (List.range fm.length).filterMap fun i =>
    match fm.get? i with
    | none => none
    | some m =>
      let rawTitle := if m.g1 = [] then (text.drop m.mstart).take (m.mend - m.mstart) else m.g1
      let title := pyCapitalize (pyStrip (stripLeadingNumbering rawTitle))
      let endPos := match fm.get? (i+1) with
                    | some m2 => m2.mstart
                    | none => text.length
      let content := pyStrip ((text.drop m.mend).take (endPos - m.mend))
      if 200 < content.length then
        some { title := title, content := content }
      else none

/-- The primary tier of `detect_sections`: sections are only built when at
least two matches survive the proximity filter. -/
def primarySections (text : Chars) (ws : List Chars) : List Section :=
  let fm := filterMatches (pyFinditer ws text) 0
  if 2 ≤ fm.length then buildPrimary text fm else []

/-! ### `detect_sections`: fallback tier

The fallback searches for an abstract via
`(?i)abstract(?:\s*\n)(.*?)(?:\n\s*\n|\n(?:[A-Z]|\d))` and an introduction via
`(?i)(?:^|\n\s*\n)(?:\d\.\s*)?introduction(?:\s*\n)(.*?)(?:\n\s*\n\d|$)`,
both with `re.DOTALL` (so `.` also matches newlines). -/

/-- The terminator of the abstract pattern, `(?:\n\s*\n|\n(?:[A-Z]|\d))`: only its
satisfiability matters (the terminator is outside capture group 1 and the
end of the abstract match is never used).  The whole pattern carries `(?i)`
(`re.IGNORECASE`), under which the class `[A-Z]` also matches the lowercase
ASCII letters, so a newline followed by a letter of either case (or a digit)
terminates the abstract. -/
def termA (s : Chars) : Bool :=
  !(nlWsNlCands s).isEmpty ||
  (match s with
   | '\n' :: c :: _ => ('A' ≤ c && c ≤ 'Z') || ('a' ≤ c && c ≤ 'z') || isPyDigit c
   | _ => false)

/-- Attempt the abstract pattern at the head of `s`: literal `abstract`,
greedy `\s*\n`, lazy capture, then the terminator.  Returns group 1. -/
def abstractAt (s : Chars) : Option Chars :=
  if matchLitCI ("abstract".toList) s then
    let s1 := s.drop 8
    (wsNlCandsAll s1).findSome? fun w =>
      let s2 := s1.drop w
      (List.range (s2.length + 1)).findSome? fun L =>
        if termA (s2.drop L) then some (s2.take L) else none
  else none

/-- Leftmost search (`re.search`) for the abstract pattern. -/
def searchAbstract : Nat → Chars → Option Chars
  | 0, _ => none
  | fuel+1, s =>
    match abstractAt s with
    | some g => some g
    | none =>
      match s with
      | [] => none
      | _ :: rest => searchAbstract fuel rest

/-- The anchor `$` (without `re.MULTILINE`): end of text, or just before a final
newline. -/
def dollarEnd (s : Chars) : Bool :=
  match s with
  | [] => true
  | ['\n'] => true
  | _ => false

/-- The terminator of the introduction pattern, `(?:\n\s*\n\d|$)`: the consumed
length of the first alternative in engine order, or `0` for `$`. -/
def termI (s : Chars) : Option Nat :=
  let alt1 :=
    match s with
    | '\n' :: rest =>
      (countdown (wsRun rest)).findSome? fun j =>
        if rest.get? j == some '\n' then
          match rest.get? (j+1) with
          | some c => if isPyDigit c then some (j + 3) else none
          | none => none
        else none
    | _ => none
  match alt1 with
  | some n => some n
  | none => if dollarEnd s then some 0 else none

/-- Candidates for the optional ordinal `(?:\d\.\s*)?` (greedy: present
first, with greedy `\s*`, then absent). -/
def introOptCands (s : Chars) : List Nat :=
  (match s with
   | c :: '.' :: rest2 =>
     if isPyDigit c then (countdown (wsRun rest2)).map (fun k => k + 2) else []
   | _ => []) ++ [0]

/-- Attempt the introduction pattern at position `pos` (suffix `s`).
Returns `(group 1, match end)`. -/
def introAt (pos : Nat) (s : Chars) : Option (Chars × Nat) :=
  (startCands pos s).findSome? fun p =>
    let sp := s.drop p
    (introOptCands sp).findSome? fun o =>
      let so := sp.drop o
      if matchLitCI ("introduction".toList) so then
        let s1 := so.drop 12
        (wsNlCandsAll s1).findSome? fun w =>
          let s2 := s1.drop w
          (List.range (s2.length + 1)).findSome? fun L =>
            match termI (s2.drop L) with
            | some t => some (s2.take L, pos + p + o + 12 + w + L + t)
            | none => none
      else none

/-- Leftmost search (`re.search`) for the introduction pattern. -/
def searchIntro : Nat → Nat → Chars → Option (Chars × Nat)
  | 0, _, _ => none
  | fuel+1, pos, s =>
    match introAt pos s with
    | some r => some r
    | none =>
      match s with
      | [] => none
      | _ :: rest => searchIntro fuel (pos + 1) rest

/-- The fallback tier of `detect_sections`.  Slice positions `int(n*0.8)`,
`int(n*0.25)` and `int(n*0.75)` are modelled as `4*n/5`, `n/4` and `3*n/4`
(exact for the float constants on all realistic lengths). -/
def fallbackSections (text : Chars) : List Section :=
  let n := text.length
  match searchAbstract (n+1) text, searchIntro (n+1) 0 text with
  | some ga, some (gi, ie) =>
    [ { title := "Abstract".toList, content := pyStrip ga },
      { title := "Introduction".toList, content := pyStrip gi },
      { title := "Main Body".toList, content := (text.drop ie).take (4*n/5 - ie) },
      { title := "Conclusion".toList, content := text.drop (4*n/5) } ]
  | none, some (gi, ie) =>
    [ { title := "Introduction".toList, content := pyStrip gi },
      { title := "Main Body".toList, content := (text.drop ie).take (4*n/5 - ie) },
      { title := "Conclusion".toList, content := text.drop (4*n/5) } ]
  | _, none =>
    [ { title := "Introduction".toList, content := text.take (n/4) },
      { title := "Methods and Results".toList, content := (text.drop (n/4)).take (3*n/4 - n/4) },
      { title := "Discussion and Conclusion".toList, content := text.drop (3*n/4) } ]

/-! ### `detect_sections`: assembly -/

/-- The `sections` list before size post-processing: the primary tier when it
produced at least two sections, else the fallback tier. -/
def preSections (text : Chars) (ws : List Chars) : List Section :=
  let prim := primarySections text ws
  if prim.length < 2 then fallbackSections text else prim

/-- Size post-processing of a single section: a section whose content
exceeds `maxChars` is replaced by one section per chunk of
`chunk_text`, titled `"<title> (Part <i+1>)"`. -/
def chunkOne (maxChars : Nat) (s : Section) : List Section :=
  if maxChars < s.content.length then
    (chunk_text s.content maxChars).enum.map fun isub =>
      { title := s.title ++ " (Part ".toList ++ Nat.toDigits 10 (isub.1 + 1) ++ ")".toList,
        content := isub.2 }
  else [s]

/-- Function `detect_sections` from `extractors/section.py`. -/
def detect_sections (text : Chars) (ws : List Chars) (maxChars : Nat) : List Section :=
  (preSections text ws).flatMap (chunkOne maxChars)

/-! ### `processors/topic.py` -/

/-- Python `int()` on a float value: truncation toward zero. -/
def pyInt (q : ℚ) : Int := if q < 0 then -((-q).floor) else q.floor

/-- Python `max` on two integers. -/
def pyMaxI (a b : Int) : Int := if a ≤ b then b else a

/-- Python string repetition `s * n` (empty for `n ≤ 0`). -/
def pyStrMul (s : String) (n : Int) : String := String.join (List.replicate n.toNat s)

/-- Python `str.lower()` (character-wise lowercasing). -/
def pyToLower (s : String) : String := String.mk (s.data.map Char.toLower)

/-- Line 49 of `processors/topic.py`: the synthetic topic document
`" ".join([term.lower() * max(1, int(score * 10)) for term, score in topic_dict.items()])`. -/
def buildTopicText (topics : List (String × ℚ)) : String :=
  String.intercalate " " (topics.map fun tw => pyStrMul (pyToLower tw.1) (pyMaxI 1 (pyInt (tw.2 * 10))))

/-- Function `compute_topic_similarity` from `processors/topic.py`.  The TF-IDF
vectorization plus cosine similarity is the external vector-similarity
utility and is passed in as `tfidfCos` (an `Except.error` models a raised
exception, which the code converts to `0.0`, as it does degenerate empty
inputs). -/
def compute_topic_similarity (tfidfCos : String → String → Except Unit ℚ)
    (topics : List (String × ℚ)) (text : String) : ℚ :=
  let topicText := buildTopicText topics
  if text = "" ∨ topicText = "" then 0
  else
    match tfidfCos topicText (pyToLower text) with
    | .ok v => v
    | .error _ => 0

/-- The similarity a fixed topic map assigns to a section content. -/
def simOf (tfidfCos : String → String → Except Unit ℚ) (topics : List (String × ℚ))
    (content : Chars) : ℚ :=
  compute_topic_similarity tfidfCos topics (String.mk content)

/-- Attach the `topic_similarity` annotation, as the loop of
`filter_irrelevant_sections` does to every section it visits. -/
def annotateSim (sim : Chars → ℚ) (s : Section) : Section :=
  { s with topic_similarity := some (sim s.content) }

/-- Comparison realising Python `sorted(l, key=key, reverse=True)`: that
sort is stable, so sorting in reverse by `key` is sorting index-tagged
elements lexicographically by (key descending, original index ascending);
the sort of Python is stable.  Since this lexicographic order is total and antisymmetric on the index-tagged
elements, its sorted permutation is unique, and any stable sorting algorithm
(the one of Python included) produces it. -/
def revKeyRel (key : α → ℚ) (a b : Nat × α) : Prop :=
  key b.2 < key a.2 ∨ (key a.2 = key b.2 ∧ a.1 ≤ b.1)

instance (key : α → ℚ) : DecidableRel (revKeyRel key) := fun _ _ =>
  inferInstanceAs (Decidable (_ ∨ _))

instance (key : α → ℚ) : IsTrans (Nat × α) (revKeyRel key) := by
  constructor
  intro a b c hab hbc
  rcases hab with h1 | ⟨h1, h2⟩ <;> rcases hbc with h3 | ⟨h3, h4⟩
  · exact Or.inl (lt_trans h3 h1)
  · exact Or.inl (lt_of_eq_of_lt h3.symm h1)
  · exact Or.inl (lt_of_lt_of_eq h3 h1.symm)
  · exact Or.inr ⟨h1.trans h3, h2.trans h4⟩

instance (key : α → ℚ) : IsTotal (Nat × α) (revKeyRel key) := by
  constructor
  intro a b
  rcases lt_trichotomy (key a.2) (key b.2) with h | h | h
  · exact Or.inr (Or.inl h)
  · rcases Nat.le_total a.1 b.1 with h2 | h2
    · exact Or.inl (Or.inr ⟨h, h2⟩)
    · exact Or.inr (Or.inr ⟨h.symm, h2⟩)
  · exact Or.inl (Or.inl h)

/-- Python `sorted(l, key=key, reverse=True)`. -/
def pySortedRev (key : α → ℚ) (l : List α) : List α :=
  ((l.enum).insertionSort (revKeyRel key)).map Prod.snd

/-- The input sections after the annotating loop of
`filter_irrelevant_sections` has visited all of them (the Python loop mutates
the section dictionaries in place, so the input list ends up holding these
annotated records). -/
def annotatedOf (tfidfCos : String → String → Except Unit ℚ) (topics : List (String × ℚ))
    (sections : List Section) : List Section :=
  sections.map (annotateSim (simOf tfidfCos topics))

/-- The `relevant_sections` accumulated by the loop of
`filter_irrelevant_sections`: the annotated sections whose similarity is at
or above the threshold. -/
def relevantOf (tfidfCos : String → String → Except Unit ℚ) (topics : List (String × ℚ))
    (thr : ℚ) (sections : List Section) : List Section :=
  (annotatedOf tfidfCos topics sections).filter fun s =>
    decide (thr ≤ simOf tfidfCos topics s.content)

/-- Function `filter_irrelevant_sections` from `processors/topic.py`: annotate every
section with its topic similarity, keep those at or above the threshold, and
if fewer than 3 survive while at least 3 came in, keep instead the top 3 of
the (annotated) input by similarity. -/
def filter_irrelevant_sections (tfidfCos : String → String → Except Unit ℚ)
    (topics : List (String × ℚ)) (thr : ℚ) (sections : List Section) : List Section :=
  if (relevantOf tfidfCos topics thr sections).length < 3 ∧ 3 ≤ sections.length then
    (pySortedRev (fun s => s.topic_similarity.getD 0)
      (annotatedOf tfidfCos topics sections)).take 3
  else relevantOf tfidfCos topics thr sections

/-! ### `processors/coherence.py` -/

/-- The per-section mean pairwise similarities
`[(i, mean(cos(m[i], m[j]) for j != i)) for i in range(n)]`. -/
def sectionScores (sim : Nat → Nat → ℚ) (n : Nat) : List (Nat × ℚ) :=
  (List.range n).map fun i =>
    let others := (List.range n).filter fun j => j != i
    (i, if others.isEmpty then 0 else (others.map (sim i)).sum / (others.length : ℚ))

/-- Comparison realising Python `sorted(scores, key=lambda x: x[1])` on the
index-score pairs (stable, hence ties broken by the index in the first
component; as for `revKeyRel`, this lexicographic order makes the sorted
permutation unique). -/
def scorePairRel (a b : Nat × ℚ) : Prop :=
  a.2 < b.2 ∨ (a.2 = b.2 ∧ a.1 ≤ b.1)

instance : DecidableRel scorePairRel := fun _ _ =>
  inferInstanceAs (Decidable (_ ∨ _))

instance : IsTrans (Nat × ℚ) scorePairRel := by
  constructor
  intro a b c hab hbc
  rcases hab with h1 | ⟨h1, h2⟩ <;> rcases hbc with h3 | ⟨h3, h4⟩
  · exact Or.inl (lt_trans h1 h3)
  · exact Or.inl (lt_of_lt_of_eq h1 h3)
  · exact Or.inl (lt_of_eq_of_lt h1 h3)
  · exact Or.inr ⟨h1.trans h3, h2.trans h4⟩

instance : IsTotal (Nat × ℚ) scorePairRel := by
  constructor
  intro a b
  rcases lt_trichotomy a.2 b.2 with h | h | h
  · exact Or.inl (Or.inl h)
  · rcases Nat.le_total a.1 b.1 with h2 | h2
    · exact Or.inl (Or.inr ⟨h, h2⟩)
    · exact Or.inr (Or.inr ⟨h.symm, h2⟩)
  · exact Or.inr (Or.inl h)

/-- The outlier-removal core of `ensure_content_coherence`, run after a
successful vectorization: sort the index-score pairs by score (stably), and
if the lowest mean similarity is below `0.3` times the second lowest, remove
the section achieving it. -/
def coherenceCore (sim : Nat → Nat → ℚ) (sections : List Section) : List Section :=
  let sorted := (sectionScores sim sections.length).insertionSort scorePairRel
  if 3 ≤ sorted.length then
    match sorted with
    | (i0, sc0) :: (_, sc1) :: _ =>
      if sc0 < 3/10 * sc1 then sections.eraseIdx i0 else sections
    | _ => sections
  else sections

/-- Function `ensure_content_coherence` from `processors/coherence.py`.  Here `vec` is the
external TF-IDF vectorization of the section contents: on success it yields
the pairwise cosine similarities, on failure (a raised exception) the input
is returned unchanged. -/
def ensure_content_coherence (vec : List Chars → Except Unit (Nat → Nat → ℚ))
    (sections : List Section) : List Section :=
  if sections.length ≤ 2 then sections
  else
    match vec (sections.map fun s => s.content) with
    | .error _ => sections
    | .ok sim => coherenceCore sim sections

/-! ### `processors/validation.py` -/

/-- Maximal digit run at the head, and the remainder. -/
def takeDigits : Chars → Chars × Chars
  | c :: cs =>
    if isPyDigit c then
      let r := takeDigits cs
      (c :: r.1, r.2)
    else ([], c :: cs)
  | [] => ([], [])

/-- Decimal digits to a natural number. -/
def digitsToNat (acc : Nat) : Chars → Nat
  | [] => acc
  | c :: cs => digitsToNat (acc * 10 + (c.toNat - '0'.toNat)) cs

/-- The rational value of an integer part and a fractional part:
`ip.fp` as the exact rational `(ip * 10^|fp| + fp) / 10^|fp|`. -/
def ratOfDecimal (ip fp : Chars) : ℚ :=
  mkRat (digitsToNat (digitsToNat 0 ip) fp) (10 ^ fp.length)

/-- Searching `\d+(?:\.\d+)?` in the response text, then `float(...)`: the first
numeric token of `s` as a rational (decimal tokens are modelled exactly). -/
def findFirstNumber : Chars → Option ℚ
  | [] => none
  | c :: cs =>
    if isPyDigit c then
      let ir := takeDigits (c :: cs)
      match ir.2 with
      | '.' :: r2 =>
        let fr := takeDigits r2
        if fr.1.isEmpty then some (ratOfDecimal ir.1 []) else some (ratOfDecimal ir.1 fr.1)
      | _ => some (ratOfDecimal ir.1 [])
    else findFirstNumber cs

/-- Attach the `title_relevance` annotation. -/
def annotateRel (q : ℚ) (s : Section) : Section :=
  { s with title_relevance := some q }

/-- The per-section loop of `validate_content_against_title`.  `respond`
models the generative-text request (paper title, section title, first 1000
characters of the content); `Except.error` is a raised request exception.
Returns the visited (hence annotated where a score was parsed) sections and
the kept (`validated_sections`) list. -/
def validatePass (respond : String → Chars → Chars → Except Unit String) (title : String) :
    List Section → List Section × List Section
  | [] => ([], [])
  | s :: rest =>
    let r := validatePass respond title rest
    match respond title s.title (s.content.take 1000) with
    | .error _ => (s :: r.1, s :: r.2)
    | .ok resp =>
      match findFirstNumber (pyStrip resp.data) with
      | none => (s :: r.1, s :: r.2)
      | some q =>
        let s2 := annotateRel q s
        if 6 ≤ q then (s2 :: r.1, s2 :: r.2) else (s2 :: r.1, r.2)

/-- Function `validate_content_against_title` from `processors/validation.py`: the
per-section pass, then the floor-guarantee fallback, which re-sorts the
(annotated) input by `title_relevance` with default `0` and keeps the top
3. -/
def validate_content_against_title (respond : String → Chars → Chars → Except Unit String)
    (title : String) (sections : List Section) : List Section :=
  let pr := validatePass respond title sections
  if pr.2.length < 3 ∧ 3 ≤ sections.length then
    (pySortedRev (fun s => s.title_relevance.getD 0) pr.1).take 3
  else pr.2

/-! ### Spec-side definitions (for refinement comparison only) -/

/-- Plain repetition: `strRepeat s n` is `n` copies of `s` concatenated with
no separator. -/
def strRepeat (s : String) : Nat → String
  | 0 => ""
  | n+1 => s ++ strRepeat s n

/-- Round half up, the reading of the `round` mentioned by the specification:
`roundSpec q = ⌊q + 1/2⌋`, written on numerator and denominator so that it
evaluates by kernel reduction. -/
def roundSpec (q : ℚ) : Int := (mkRat (2 * q.num + q.den) (2 * q.den)).floor

/-- Modelled from the spec (§4.2): the synthetic topic document as the
specification words it, each topic term repeated `round(weight × 10)` times
(minimum 1), the repetitions concatenated with spaces between them. -/
def topicTextSpec (topics : List (String × ℚ)) : String :=
  String.intercalate " " (topics.map fun tw =>
    String.intercalate " " (List.replicate (pyMaxI 1 (roundSpec (tw.2 * 10))).toNat tw.1))

/-! ### Helper lemmas about `chunk_text` and `detect_sections` -/

theorem splitOnNlNl_ne_nil (fuel : Nat) (s : Chars) : splitOnNlNl fuel s ≠ [] := by
  cases fuel with
  | zero => simp [splitOnNlNl]
  | succ n => cases h : findNlNl s <;> simp [splitOnNlNl, h]

theorem chunkLoop_ne_nil (m : Nat) :
    ∀ (ps : List Chars) (cur : Chars), ps ≠ [] ∨ cur ≠ [] → chunkLoop m ps cur ≠ [] := by
  intro ps
  induction ps with
  | nil =>
    intro cur h
    rcases h with h | h
    · exact absurd rfl h
    · simp [chunkLoop, h]
  | cons p t ih =>
    intro cur h
    rw [chunkLoop]
    split
    · exact List.cons_ne_nil _ _
    · apply ih
      right
      simp [nlnl]

theorem chunk_text_ne_nil (t : Chars) (m : Nat) : chunk_text t m ≠ [] :=
  chunkLoop_ne_nil m _ [] (Or.inl (splitOnNlNl_ne_nil _ _))

theorem one_le_length_chunkOne (m : Nat) (s : Section) : 1 ≤ (chunkOne m s).length := by
  rw [chunkOne]
  split
  · rw [List.length_map, List.enum_length]
    exact List.length_pos.mpr (chunk_text_ne_nil _ _)
  · simp

theorem length_le_length_flatMap (l : List α) (f : α → List β)
    (h : ∀ a ∈ l, 1 ≤ (f a).length) : l.length ≤ (l.flatMap f).length := by
  induction l with
  | nil => simp
  | cons a t ih =>
    rw [List.flatMap_cons, List.length_append, List.length_cons]
    have h1 := h a (List.mem_cons_self a t)
    have h2 := ih fun b hb => h b (List.mem_cons_of_mem a hb)
    omega

theorem three_le_length_fallbackSections (text : Chars) :
    3 ≤ (fallbackSections text).length := by
  simp only [fallbackSections]
  cases ha : searchAbstract (text.length + 1) text with
  | none =>
    cases hi : searchIntro (text.length + 1) 0 text with
    | none => simp
    | some r => obtain ⟨gi, ie⟩ := r; simp
  | some ga =>
    cases hi : searchIntro (text.length + 1) 0 text with
    | none => simp
    | some r => obtain ⟨gi, ie⟩ := r; simp

theorem preSections_eq (text : Chars) (ws : List Chars) :
    preSections text ws =
      if (primarySections text ws).length < 2 then fallbackSections text
      else primarySections text ws := rfl

/-! ### Claim C1 -/

/-- Counterexample input: two well-separated primary headers with substantial
content each, so the primary tier fires with exactly two sections. -/
def c1Text : Chars :=
  "introduction\n".toList ++ List.replicate 1100 'x' ++ "\n\nmethods\n".toList ++
    List.replicate 300 'y'

def c1Pats : List Chars := ["introduction".toList, "methods".toList]

set_option maxRecDepth 100000 in
/-- C1, counterexample: `detect_sections` does not always return at least 3
sections.  On `c1Text` (a text whose primary tier finds exactly the two
headers `introduction` and `methods`, each followed by more than 200
characters of content) it returns exactly 2 sections, for any pattern list
containing those words and a `maxChars` large enough to leave them
unchunked. -/
theorem C1_counterexample : (detect_sections c1Text c1Pats 100000).length = 2 := by
  decide

/-- C1 (amended): `detect_sections` is total and always returns at least 2
sections; whenever the primary tier yields fewer than 2 sections the function
falls through to a fallback that always emits at least 3; but when the
primary tier yields exactly 2 sections the result has exactly those 2, so the
3-section floor does not hold universally. -/
theorem C1_amended (text : Chars) (ws : List Chars) (maxChars : Nat) :
    2 ≤ (detect_sections text ws maxChars).length ∧
      ((primarySections text ws).length < 2 → 3 ≤ (detect_sections text ws maxChars).length) := by
  have hfl : (preSections text ws).length ≤ (detect_sections text ws maxChars).length := by
    unfold detect_sections
    exact length_le_length_flatMap _ _ fun s _ => one_le_length_chunkOne maxChars s
  rw [preSections_eq] at hfl
  constructor
  · by_cases h : (primarySections text ws).length < 2
    · rw [if_pos h] at hfl
      have := three_le_length_fallbackSections text
      omega
    · rw [if_neg h] at hfl
      omega
  · intro h
    rw [if_pos h] at hfl
    have := three_le_length_fallbackSections text
    omega

/-- C1 witness: on the one-character text `"a"` the primary tier finds
nothing and the fully proportional fallback yields 3 sections. -/
theorem C1_amended_witness : 3 ≤ (detect_sections ("a".toList) [] 5).length :=
  (C1_amended ("a".toList) [] 5).2 (by decide)

/-! ### Claim C2 -/

theorem findNlNl_spec : ∀ (s : Chars) (k : Nat), findNlNl s = some k →
    s = s.take k ++ nlnl ++ s.drop (k + 2) := by
  intro s
  induction s with
  | nil => intro k h; simp [findNlNl] at h
  | cons c rest ih =>
    intro k h
    rw [findNlNl] at h
    split at h
    · rename_i hc
      cases h
      obtain ⟨hc1, hc2⟩ := hc
      subst hc1
      cases rest with
      | nil => simp at hc2
      | cons d rest2 =>
        simp only [List.head?_cons, Option.some.injEq] at hc2
        subst hc2
        simp [nlnl]
    · rw [Option.map_eq_some'] at h
      obtain ⟨k2, hk2, rfl⟩ := h
      have hrec := ih k2 hk2
      rw [List.take_succ_cons]
      rw [show k2 + 1 + 2 = k2 + 2 + 1 from rfl, List.drop_succ_cons]
      rw [List.cons_append, List.cons_append]
      exact congrArg (c :: ·) hrec

theorem findNlNl_le : ∀ (s : Chars) (k : Nat), findNlNl s = some k → k + 2 ≤ s.length := by
  intro s
  induction s with
  | nil => intro k h; simp [findNlNl] at h
  | cons c rest ih =>
    intro k h
    rw [findNlNl] at h
    split at h
    · rename_i hc
      cases h
      cases rest with
      | nil => simp at hc
      | cons d rest2 => simp
    · rw [Option.map_eq_some'] at h
      obtain ⟨k2, hk2, rfl⟩ := h
      have := ih k2 hk2
      simp only [List.length_cons]
      omega

/-- Each paragraph followed by one separator, concatenated in order. -/
def concatNl : List Chars → Chars
  | [] => []
  | p :: ps => p ++ nlnl ++ concatNl ps

theorem concatNl_splitOnNlNl :
    ∀ (fuel : Nat) (s : Chars), s.length < fuel →
      concatNl (splitOnNlNl fuel s) = s ++ nlnl := by
  intro fuel
  induction fuel with
  | zero => intro s h; omega
  | succ n ih =>
    intro s h
    rw [splitOnNlNl]
    cases hf : findNlNl s with
    | none => simp [concatNl]
    | some k =>
      have hspec := findNlNl_spec s k hf
      have hle := findNlNl_le s k hf
      have hlen : (s.drop (k+2)).length < n := by
        rw [List.length_drop]
        omega
      rw [concatNl, ih _ hlen]
      conv_rhs => rw [hspec]
      simp [List.append_assoc]

theorem chunkLoop_join (m : Nat) :
    ∀ (ps : List Chars) (cur : Chars),
      (chunkLoop m ps cur).foldr (· ++ ·) [] = cur ++ concatNl ps := by
  intro ps
  induction ps with
  | nil =>
    intro cur
    rw [chunkLoop]
    split
    · rename_i hc
      rw [List.isEmpty_iff] at hc
      simp [hc, concatNl]
    · simp [concatNl]
  | cons p t ih =>
    intro cur
    rw [chunkLoop]
    split
    · rw [List.foldr_cons, ih, concatNl]
    · rw [ih, concatNl]
      simp [List.append_assoc]

theorem mem_le_foldr_max : ∀ (l : List Nat), ∀ x ∈ l, x ≤ l.foldr max 0 := by
  intro l
  induction l with
  | nil => simp
  | cons a t ih =>
    intro x hx
    rw [List.foldr_cons]
    rcases List.mem_cons.mp hx with rfl | hx
    · exact Nat.le_max_left _ _
    · exact le_trans (ih x hx) (Nat.le_max_right _ _)

theorem chunkLoop_bound (m P : Nat) :
    ∀ (ps : List Chars) (cur : Chars),
      (∀ p ∈ ps, p.length ≤ P) → cur.length ≤ max m P + 2 →
      ∀ c ∈ chunkLoop m ps cur, c.length ≤ max m P + 2 := by
  intro ps
  induction ps with
  | nil =>
    intro cur _ hcur c hc
    rw [chunkLoop] at hc
    split at hc
    · simp at hc
    · rw [List.mem_singleton] at hc
      subst hc
      exact hcur
  | cons p t ih =>
    intro cur hps hcur c hc
    rw [chunkLoop] at hc
    have hpP : p.length ≤ P := hps p (List.mem_cons_self _ _)
    have htP : ∀ q ∈ t, q.length ≤ P := fun q hq => hps q (List.mem_cons_of_mem _ hq)
    split at hc
    · rcases List.mem_cons.mp hc with rfl | hc
      · exact hcur
      · refine ih (p ++ nlnl) htP ?_ c hc
        have := Nat.le_max_right m P
        simp only [List.length_append, nlnl, List.length_cons, List.length_nil]
        omega
    · rename_i hnot
      refine ih (cur ++ p ++ nlnl) htP ?_ c hc
      have hle : cur.length + p.length ≤ m := by omega
      have := Nat.le_max_left m P
      simp only [List.length_append, nlnl, List.length_cons, List.length_nil]
      omega

theorem chunk_text_bound (t : Chars) (m : Nat) :
    ∀ c ∈ chunk_text t m, c.length ≤ max m (paraMax t) + 2 := by
  intro c hc
  refine chunkLoop_bound m (paraMax t) _ [] ?_ (by simp) c hc
  intro p hp
  exact mem_le_foldr_max _ _ (List.mem_map_of_mem List.length hp)

theorem snd_mem_of_mem_enumFrom :
    ∀ (l : List α) (n : Nat) (p : Nat × α), p ∈ l.enumFrom n → p.2 ∈ l := by
  intro l
  induction l with
  | nil => intro n p hp; simp [List.enumFrom] at hp
  | cons a t ih =>
    intro n p hp
    rw [List.enumFrom_cons] at hp
    rcases List.mem_cons.mp hp with rfl | hp
    · exact List.mem_cons_self _ _
    · exact List.mem_cons_of_mem _ (ih _ _ hp)

theorem snd_mem_of_mem_enum (l : List α) (p : Nat × α) (hp : p ∈ l.enum) : p.2 ∈ l :=
  snd_mem_of_mem_enumFrom l 0 p hp

/-- Length of the longest paragraph of any pre-chunking section content. -/
def preParaMax (text : Chars) (ws : List Chars) : Nat :=
  ((preSections text ws).map fun p => paraMax p.content).foldr max 0

def c2Text : Chars := "abcdefghijkl".toList

def c2Pats : List Chars := ["introduction".toList]

/-- C2, counterexample: on a 12-character text with no blank line and no
matching header, the fallback produces the middle proportional section
`"defghi"` (6 characters), which with `maxChars = 4` is sent through
`chunk_text`; the resulting chunk `"defghi\n\n"` has length 8 > 4, so a
detector-output section exceeds `maxChars`. -/
theorem C2_counterexample :
    ((detect_sections c2Text c2Pats 4).any fun s => decide (4 < s.content.length)) = true := by
  decide

/-- C2 (amended): splitting is paragraph-aligned — concatenating the chunks
of a text restores the text followed by one trailing separator — and every
content of every detector-output section is bounded by
`max maxChars (longest paragraph of a pre-chunking section) + 2`: a chunk
that combines several paragraphs exceeds `maxChars` by at most the 2
characters of the appended separator, but a single paragraph longer than
`maxChars` is never broken and survives whole, so `maxChars` alone does not
bound the output. -/
theorem C2_amended (text : Chars) (ws : List Chars) (maxChars : Nat) :
    (∀ s ∈ detect_sections text ws maxChars,
        s.content.length ≤ max maxChars (preParaMax text ws) + 2) ∧
    ∀ t : Chars, (chunk_text t maxChars).foldr (· ++ ·) [] = t ++ nlnl := by
  constructor
  · intro s hs
    unfold detect_sections at hs
    rw [List.mem_flatMap] at hs
    obtain ⟨p, hp, hsp⟩ := hs
    have hpmax : paraMax p.content ≤ preParaMax text ws :=
      mem_le_foldr_max _ _ (List.mem_map_of_mem _ hp)
    rw [chunkOne] at hsp
    split at hsp
    · rw [List.mem_map] at hsp
      obtain ⟨isub, hisub, rfl⟩ := hsp
      have h2 : isub.2 ∈ chunk_text p.content maxChars :=
        snd_mem_of_mem_enum _ _ hisub
      have hb := chunk_text_bound p.content maxChars isub.2 h2
      have hmax : max maxChars (paraMax p.content) ≤ max maxChars (preParaMax text ws) :=
        max_le_max (le_refl _) hpmax
      simp only
      omega
    · rename_i hnot
      rw [List.mem_singleton] at hsp
      subst hsp
      have := Nat.le_max_left maxChars (preParaMax text ws)
      omega
  · intro t
    unfold chunk_text
    rw [chunkLoop_join]
    simp only [List.nil_append]
    exact concatNl_splitOnNlNl _ _ (Nat.lt_succ_self _)

def c2Sec : Section :=
  { title := "Methods and Results (Part 2)".toList, content := "defghi\n\n".toList }

/-- C2 witness: instantiating the amended bound at the concrete oversized
chunk of `c2Text`. -/
theorem C2_amended_witness :
    c2Sec.content.length ≤ max 4 (preParaMax c2Text c2Pats) + 2 :=
  (C2_amended c2Text c2Pats 4).1 c2Sec (by decide)

/-! ### Claim C6 -/

def c6Text : Chars := "ab".toList

/-- C6, counterexample: on the two-character text `"ab"` the fully
proportional fallback fires and its first section is
`text[:int(2*0.25)] = text[:0]`, the empty string — a detector-output
section whose content is empty, hence far below 200 characters. -/
theorem C6_counterexample :
    ((detect_sections c6Text ["introduction".toList] 1000).any fun s =>
        s.content.isEmpty) = true := by
  decide

/-- C6 (amended): only the primary tier enforces the minimum content length —
every section it creates has content strictly longer than 200 characters —
while fallback-tier sections and chunk parts carry no lower bound and can
even be empty. -/
theorem C6_amended (text : Chars) (ws : List Chars) :
    ∀ s ∈ primarySections text ws, 200 < s.content.length := by
  intro s hs
  rw [primarySections] at hs
  split at hs
  · rw [buildPrimary, List.mem_filterMap] at hs
    obtain ⟨i, hi, hf⟩ := hs
    cases hm : (filterMatches (pyFinditer ws text) 0).get? i with
    | none => rw [hm] at hf; simp at hf
    | some m =>
      rw [hm] at hf
      simp only at hf
      split at hf
      · rename_i hlen
        cases hf
        exact hlen
      · simp at hf
  · simp at hs

def c1Sec : Section :=
  { title := "Introduction".toList, content := List.replicate 1100 'x' }

set_option maxRecDepth 100000 in
/-- C6 witness: the first primary-tier section of `c1Text` indeed has more
than 200 characters of content. -/
theorem C6_amended_witness : 200 < c1Sec.content.length :=
  C6_amended c1Text c1Pats c1Sec (by decide)

/-! ### Claim C5 -/

theorem join_replicate_eq_strRepeat (s : String) :
    ∀ n, String.join (List.replicate n s) = strRepeat s n := by
  intro n
  induction n with
  | zero => rfl
  | succ k ih =>
    apply String.ext
    rw [List.replicate_succ]
    simp [String.data_join, strRepeat, ← ih]

/-- C5, counterexample: for the topic map `{"ab": 0.5}` the code builds
`"ab" * max(1, int(0.5*10)) = "ababababab"` — the five repetitions of a term
are concatenated with NO separator (Python string multiplication), whereas
the claimed construction (`round(weight*10)` repetitions joined with spaces)
gives `"ab ab ab ab ab"`.  (At weight `0.5` both rounding readings agree on
the count 5, isolating the separator discrepancy; counts also differ
elsewhere, e.g. weight `0.75` gives `int(7.5) = 7` but `round(7.5) = 8`.) -/
theorem C5_counterexample :
    buildTopicText [("ab", (1:ℚ)/2)] = "ababababab" ∧
    topicTextSpec [("ab", (1:ℚ)/2)] = "ab ab ab ab ab" ∧
    buildTopicText [("ab", (1:ℚ)/2)] ≠ topicTextSpec [("ab", (1:ℚ)/2)] := by
  have h : ((1:ℚ)/2) * 10 = 5 := by norm_num
  refine ⟨?_, ?_, ?_⟩ <;>
    simp only [buildTopicText, topicTextSpec, List.map_cons, List.map_nil, h] <;> decide

/-- C5 (amended): the synthetic topic document repeats each lowercased topic
term exactly `max(1, int(weight × 10))` times — `int` truncates toward zero,
it does not round — with the repetitions of one term concatenated with no
separator, and the per-term blocks joined by single spaces. -/
theorem C5_amended (topics : List (String × ℚ)) :
    buildTopicText topics =
      String.intercalate " " (topics.map fun tw =>
        strRepeat (pyToLower tw.1) (pyMaxI 1 (pyInt (tw.2 * 10))).toNat) := by
  unfold buildTopicText
  congr 1
  apply List.map_congr_left
  intro tw _
  exact join_replicate_eq_strRepeat _ _

/-! ### Claim C9 -/

/-- C9: with at most two sections, `ensure_content_coherence` is the
identity: same sections, same count, same order. -/
theorem C9 (vec : List Chars → Except Unit (Nat → Nat → ℚ)) (sections : List Section)
    (h : sections.length ≤ 2) : ensure_content_coherence vec sections = sections := by
  rw [ensure_content_coherence, if_pos h]

def secA : Section := { title := "A".toList, content := "a".toList }

def secB : Section := { title := "B".toList, content := "b".toList }

def secC : Section := { title := "C".toList, content := "c".toList }

def secD : Section := { title := "D".toList, content := "d".toList }

/-- C9 witness: a concrete two-section input is returned unchanged. -/
theorem C9_witness :
    ensure_content_coherence (fun _ => .error ()) [secA, secB] = [secA, secB] :=
  C9 _ _ (by decide)

/-! ### Helper lemmas about the stable sorts -/

theorem pySortedRev_perm (key : α → ℚ) (l : List α) : List.Perm (pySortedRev key l) l := by
  unfold pySortedRev
  have h2 := (List.perm_insertionSort (revKeyRel key) l.enum).map Prod.snd
  rwa [List.enum_map_snd] at h2

theorem pySortedRev_length (key : α → ℚ) (l : List α) :
    (pySortedRev key l).length = l.length :=
  (pySortedRev_perm key l).length_eq

theorem pySortedRev_pairwise (key : α → ℚ) (l : List α) :
    (pySortedRev key l).Pairwise fun a b => key b ≤ key a := by
  unfold pySortedRev
  rw [List.pairwise_map]
  have hs : List.Pairwise (revKeyRel key) (l.enum.insertionSort (revKeyRel key)) :=
    List.sorted_insertionSort (revKeyRel key) l.enum
  refine hs.imp ?_
  intro a b h
  rcases h with h | ⟨h, _⟩
  · exact le_of_lt h
  · exact le_of_eq h.symm

theorem exists_mem_enumFrom :
    ∀ (l : List α) (n : Nat) (x : α), x ∈ l → ∃ i, (i, x) ∈ l.enumFrom n := by
  intro l
  induction l with
  | nil => intro n x hx; simp at hx
  | cons a t ih =>
    intro n x hx
    rcases List.mem_cons.mp hx with rfl | hx2
    · exact ⟨n, by rw [List.enumFrom_cons]; exact List.mem_cons_self _ _⟩
    · obtain ⟨i, hi⟩ := ih (n+1) x hx2
      exact ⟨i, by rw [List.enumFrom_cons]; exact List.mem_cons_of_mem _ hi⟩

theorem exists_mem_enum (l : List α) (x : α) (hx : x ∈ l) : ∃ i, (i, x) ∈ l.enum :=
  exists_mem_enumFrom l 0 x hx

/-- The top-3 selection the floor-guarantee fallback is claimed to make:
exactly 3 sections, all drawn from the pool, listed by non-increasing score,
and no discarded pool element scores above a kept one (ties are broken in
favour of earlier input positions by the stable sort). -/
def topThreeSpec (key : α → ℚ) (pool out : List α) : Prop :=
  out.length = 3 ∧ (∀ y ∈ out, y ∈ pool) ∧
  (out.Pairwise fun a b => key b ≤ key a) ∧
  ∀ x ∈ pool, x ∉ out → ∀ y ∈ out, key x ≤ key y

theorem pySortedRev_take3_topThree (key : α → ℚ) (pool : List α) (h3 : 3 ≤ pool.length) :
    topThreeSpec key pool ((pySortedRev key pool).take 3) := by
  refine ⟨?_, ?_, ?_, ?_⟩
  · rw [List.length_take, pySortedRev_length]
    omega
  · intro y hy
    exact (pySortedRev_perm key pool).mem_iff.mp (List.mem_of_mem_take hy)
  · exact (pySortedRev_pairwise key pool).sublist (List.take_sublist 3 _)
  · intro x hx hnx y hy
    obtain ⟨i, hi⟩ := exists_mem_enum pool x hx
    have hisp : (i, x) ∈ (pool.enum).insertionSort (revKeyRel key) :=
      (List.perm_insertionSort (revKeyRel key) pool.enum).mem_iff.mpr hi
    have hpw : List.Pairwise (revKeyRel key)
        ((pool.enum).insertionSort (revKeyRel key)) :=
      List.sorted_insertionSort (revKeyRel key) pool.enum
    have hpw2 : (((pool.enum).insertionSort (revKeyRel key)).take 3 ++
        ((pool.enum).insertionSort (revKeyRel key)).drop 3).Pairwise (revKeyRel key) := by
      rw [List.take_append_drop]
      exact hpw
    have hnx3 : (i, x) ∉ ((pool.enum).insertionSort (revKeyRel key)).take 3 := by
      intro hmem
      apply hnx
      unfold pySortedRev
      rw [← List.map_take]
      exact List.mem_map_of_mem Prod.snd hmem
    have hx3 : (i, x) ∈ ((pool.enum).insertionSort (revKeyRel key)).drop 3 := by
      have := List.take_append_drop 3 ((pool.enum).insertionSort (revKeyRel key))
      rcases List.mem_append.mp (by rw [this]; exact hisp) with h | h
      · exact absurd h hnx3
      · exact h
    unfold pySortedRev at hy
    rw [← List.map_take] at hy
    obtain ⟨q, hq, rfl⟩ := List.mem_map.mp hy
    have hle := (List.pairwise_append.mp hpw2).2.2 q hq (i, x) hx3
    rcases hle with h | ⟨h, _⟩
    · exact le_of_lt h
    · exact le_of_eq h.symm

/-! ### Claim C3 -/

theorem validatePass_fst_length (respond : String → Chars → Chars → Except Unit String)
    (title : String) :
    ∀ sections : List Section,
      ((validatePass respond title sections).1).length = sections.length := by
  intro sections
  induction sections with
  | nil => rfl
  | cons s rest ih =>
    simp only [validatePass]
    cases hr : respond title s.title (s.content.take 1000) with
    | error e => simp [ih]
    | ok resp =>
      cases hn : findFirstNumber (pyStrip resp.data) with
      | none => simp [hn, ih]
      | some q =>
        by_cases h6 : (6:ℚ) ≤ q <;> simp [hn, h6, ih]

theorem annotatedOf_length (tfidfCos : String → String → Except Unit ℚ)
    (topics : List (String × ℚ)) (sections : List Section) :
    (annotatedOf tfidfCos topics sections).length = sections.length :=
  List.length_map _ _

/-- C3: the floor-guarantee policy of both filter stages.  With at least 3
input sections, both `filter_irrelevant_sections` and
`validate_content_against_title` return at least 3 sections; and whenever
fewer than 3 sections survive the threshold (respectively score) test, the
result is instead exactly the stable descending-by-score top 3 of the
annotated input (`topic_similarity`, respectively `title_relevance` with
default 0), so it has exactly 3 elements drawn from the input, in
non-increasing score order, every discarded section scoring no higher than
any kept one, ties favouring earlier input positions. -/
theorem C3 (tfidfCos : String → String → Except Unit ℚ) (topics : List (String × ℚ))
    (thr : ℚ) (respond : String → Chars → Chars → Except Unit String) (title : String)
    (sections : List Section) (h3 : 3 ≤ sections.length) :
    3 ≤ (filter_irrelevant_sections tfidfCos topics thr sections).length ∧
    3 ≤ (validate_content_against_title respond title sections).length ∧
    ((relevantOf tfidfCos topics thr sections).length < 3 →
      filter_irrelevant_sections tfidfCos topics thr sections =
        (pySortedRev (fun s => s.topic_similarity.getD 0)
          (annotatedOf tfidfCos topics sections)).take 3 ∧
      topThreeSpec (fun s => s.topic_similarity.getD 0)
        (annotatedOf tfidfCos topics sections)
        (filter_irrelevant_sections tfidfCos topics thr sections)) ∧
    ((validatePass respond title sections).2.length < 3 →
      validate_content_against_title respond title sections =
        (pySortedRev (fun s => s.title_relevance.getD 0)
          (validatePass respond title sections).1).take 3 ∧
      topThreeSpec (fun s => s.title_relevance.getD 0)
        (validatePass respond title sections).1
        (validate_content_against_title respond title sections)) := by
  have hannlen := annotatedOf_length tfidfCos topics sections
  have hpasslen := validatePass_fst_length respond title sections
  refine ⟨?_, ?_, ?_, ?_⟩
  · rw [filter_irrelevant_sections]
    by_cases hc : (relevantOf tfidfCos topics thr sections).length < 3 ∧ 3 ≤ sections.length
    · rw [if_pos hc, List.length_take, pySortedRev_length, hannlen]
      omega
    · rw [if_neg hc]
      rcases Decidable.not_and_iff_or_not.mp hc with h | h
      · omega
      · exact absurd h3 h
  · rw [validate_content_against_title]
    by_cases hc : ((validatePass respond title sections).2).length < 3 ∧ 3 ≤ sections.length
    · rw [if_pos hc, List.length_take, pySortedRev_length, hpasslen]
      omega
    · rw [if_neg hc]
      rcases Decidable.not_and_iff_or_not.mp hc with h | h
      · omega
      · exact absurd h3 h
  · intro hlt
    have hc : (relevantOf tfidfCos topics thr sections).length < 3 ∧ 3 ≤ sections.length :=
      ⟨hlt, h3⟩
    have heq : filter_irrelevant_sections tfidfCos topics thr sections =
        (pySortedRev (fun s => s.topic_similarity.getD 0)
          (annotatedOf tfidfCos topics sections)).take 3 := by
      rw [filter_irrelevant_sections, if_pos hc]
    refine ⟨heq, ?_⟩
    rw [heq]
    exact pySortedRev_take3_topThree _ _ (by omega)
  · intro hlt
    have hc : ((validatePass respond title sections).2).length < 3 ∧ 3 ≤ sections.length :=
      ⟨hlt, h3⟩
    have heq : validate_content_against_title respond title sections =
        (pySortedRev (fun s => s.title_relevance.getD 0)
          (validatePass respond title sections).1).take 3 := by
      rw [validate_content_against_title, if_pos hc]
    refine ⟨heq, ?_⟩
    rw [heq]
    exact pySortedRev_take3_topThree _ _ (by omega)

/-- C3 witness: a concrete three-section instantiation. -/
theorem C3_witness :
    3 ≤ (filter_irrelevant_sections (fun _ _ => .ok 0) [] 0 [secA, secB, secC]).length :=
  (C3 (fun _ _ => .ok 0) [] 0 (fun _ _ _ => .error ()) "T" [secA, secB, secC] (by decide)).1

/-! ### Claim C4 -/

theorem sectionScores_length (sim : Nat → Nat → ℚ) (n : Nat) :
    (sectionScores sim n).length = n := by
  rw [sectionScores, List.length_map, List.length_range]

theorem sectionScores_map_fst (sim : Nat → Nat → ℚ) (n : Nat) :
    (sectionScores sim n).map Prod.fst = List.range n := by
  rw [sectionScores, List.map_map]
  exact List.map_id' _

theorem fst_lt_of_mem_sectionScores (sim : Nat → Nat → ℚ) (n : Nat) (js : Nat × ℚ)
    (h : js ∈ sectionScores sim n) : js.1 < n := by
  have h2 := List.mem_map_of_mem Prod.fst h
  rw [sectionScores_map_fst] at h2
  exact List.mem_range.mp h2

/-- The outlier-selection characterization of `coherenceCore`: with `sim`
given, there are `i0`, `sc0` (the smallest mean similarity, achieved at the
earliest index `i0` among ties) and `sc1` (the second smallest, i.e. the
minimum over the other indices, and achieved there), such that the result
removes index `i0` exactly when `sc0 < 0.3 * sc1` and is unchanged
otherwise. -/
theorem coherenceCore_spec (sim : Nat → Nat → ℚ) (sections : List Section)
    (h3 : 3 ≤ sections.length) :
    ∃ i0 sc0 sc1,
      i0 < sections.length ∧
      (i0, sc0) ∈ sectionScores sim sections.length ∧
      (∀ js ∈ sectionScores sim sections.length, sc0 ≤ js.2) ∧
      (∀ js ∈ sectionScores sim sections.length, js.2 = sc0 → i0 ≤ js.1) ∧
      sc0 ≤ sc1 ∧
      (∀ js ∈ sectionScores sim sections.length, js.1 ≠ i0 → sc1 ≤ js.2) ∧
      (∃ js ∈ sectionScores sim sections.length, js.1 ≠ i0 ∧ js.2 = sc1) ∧
      coherenceCore sim sections =
        if sc0 < 3/10 * sc1 then sections.eraseIdx i0 else sections := by
  have hslen : (sectionScores sim sections.length).length = sections.length :=
    sectionScores_length sim sections.length
  have hperm := List.perm_insertionSort scorePairRel (sectionScores sim sections.length)
  have hpw : List.Pairwise scorePairRel
      ((sectionScores sim sections.length).insertionSort scorePairRel) :=
    List.sorted_insertionSort scorePairRel (sectionScores sim sections.length)
  rcases hsort : (sectionScores sim sections.length).insertionSort scorePairRel with
    _ | ⟨⟨i0, sc0⟩, tail⟩
  · exfalso
    have := hperm.length_eq
    rw [hsort] at this
    simp at this
    omega
  rcases htail : tail with _ | ⟨⟨i1, sc1⟩, rest⟩
  · exfalso
    have := hperm.length_eq
    rw [hsort, htail] at this
    simp at this
    omega
  subst htail
  rw [hsort] at hperm hpw
  rw [List.pairwise_cons] at hpw
  obtain ⟨hp0, hpw2⟩ := hpw
  rw [List.pairwise_cons] at hpw2
  obtain ⟨hp1, _⟩ := hpw2
  have hmem0 : (i0, sc0) ∈ sectionScores sim sections.length :=
    hperm.mem_iff.mp (List.mem_cons_self _ _)
  have hmem1 : (i1, sc1) ∈ sectionScores sim sections.length :=
    hperm.mem_iff.mp (List.mem_cons_of_mem _ (List.mem_cons_self _ _))
  have h01 : sc0 ≤ sc1 := by
    have := hp0 (i1, sc1) (List.mem_cons_self _ _)
    rcases this with h | ⟨h, _⟩
    · exact le_of_lt h
    · exact le_of_eq h
  have hne10 : i1 ≠ i0 := by
    have hndr : (List.range sections.length).Nodup := List.nodup_range _
    rw [← sectionScores_map_fst sim sections.length] at hndr
    have hnd2 : (((i0, sc0) :: (i1, sc1) :: rest).map Prod.fst).Nodup :=
      ((hperm.map Prod.fst).nodup_iff).mpr hndr
    rw [List.map_cons, List.map_cons, List.nodup_cons] at hnd2
    intro h
    exact hnd2.1 (h ▸ List.mem_cons_self _ _)
  refine ⟨i0, sc0, sc1, fst_lt_of_mem_sectionScores sim _ _ hmem0, hmem0, ?_, ?_, h01, ?_, ?_, ?_⟩
  · intro js hjs
    rcases List.mem_cons.mp (hperm.mem_iff.mpr hjs) with rfl | h2
    · exact le_refl _
    · have := hp0 js h2
      rcases this with h | ⟨h, _⟩
      · exact le_of_lt h
      · exact le_of_eq h
  · intro js hjs hjs0
    rcases List.mem_cons.mp (hperm.mem_iff.mpr hjs) with rfl | h2
    · exact le_refl _
    · have := hp0 js h2
      rcases this with h | ⟨_, h⟩
      · rw [hjs0] at h
        exact absurd h (lt_irrefl sc0)
      · exact h
  · intro js hjs hne
    rcases List.mem_cons.mp (hperm.mem_iff.mpr hjs) with rfl | h2
    · exact absurd rfl hne
    rcases List.mem_cons.mp h2 with rfl | h3
    · exact le_refl _
    · have := hp1 js h3
      rcases this with h | ⟨h, _⟩
      · exact le_of_lt h
      · exact le_of_eq h
  · exact ⟨(i1, sc1), hmem1, hne10, rfl⟩
  · simp only [coherenceCore]
    rw [hsort]
    have hlen2 := hperm.length_eq
    simp only [List.length_cons] at hlen2
    rw [if_pos (by simp only [List.length_cons]; omega)]

set_option maxHeartbeats 1000000 in
/-- C4: outlier removal in `ensure_content_coherence`.  With at least 3
sections: at most one section is ever removed; any vectorization failure
returns the input unchanged; and on success there are `lowest = sc0` (the
smallest mean pairwise similarity, achieved at the earliest such index `i0`)
and `secondLowest = sc1` (the smallest among the other indices) such that
exactly the section at `i0` is removed — the others keeping their relative
order, which is what `List.eraseIdx` expresses — precisely when
`sc0 < 0.3 × sc1`, and the input is returned unchanged otherwise. -/
theorem C4 (vec : List Chars → Except Unit (Nat → Nat → ℚ)) (sections : List Section)
    (h3 : 3 ≤ sections.length) :
    ((sections.length - 1 ≤ (ensure_content_coherence vec sections).length) ∧
      (ensure_content_coherence vec sections).length ≤ sections.length) ∧
    (∀ e : Unit, vec (sections.map fun s => s.content) = .error e →
      ensure_content_coherence vec sections = sections) ∧
    ∀ sim, vec (sections.map fun s => s.content) = .ok sim →
      ∃ i0 sc0 sc1,
        i0 < sections.length ∧
        (i0, sc0) ∈ sectionScores sim sections.length ∧
        (∀ js ∈ sectionScores sim sections.length, sc0 ≤ js.2) ∧
        (∀ js ∈ sectionScores sim sections.length, js.2 = sc0 → i0 ≤ js.1) ∧
        sc0 ≤ sc1 ∧
        (∀ js ∈ sectionScores sim sections.length, js.1 ≠ i0 → sc1 ≤ js.2) ∧
        (∃ js ∈ sectionScores sim sections.length, js.1 ≠ i0 ∧ js.2 = sc1) ∧
        ensure_content_coherence vec sections =
          if sc0 < 3/10 * sc1 then sections.eraseIdx i0 else sections := by
  have hn2 : ¬ sections.length ≤ 2 := by omega
  have herr : ∀ e : Unit, vec (sections.map fun s => s.content) = .error e →
      ensure_content_coherence vec sections = sections := by
    intro e he
    rw [ensure_content_coherence, if_neg hn2, he]
  have hok : ∀ sim, vec (sections.map fun s => s.content) = .ok sim →
      ensure_content_coherence vec sections = coherenceCore sim sections := by
    intro sim hv
    rw [ensure_content_coherence, if_neg hn2, hv]
  refine ⟨?_, herr, ?_⟩
  · cases hv : vec (sections.map fun s => s.content) with
    | error e =>
      rw [herr e hv]
      omega
    | ok sim =>
      obtain ⟨i0, sc0, sc1, hi0, _, _, _, _, _, _, hres⟩ := coherenceCore_spec sim sections h3
      rw [hok sim hv, hres]
      split
      · constructor
        · exact List.le_length_eraseIdx sections i0
        · exact List.length_eraseIdx_le sections i0
      · omega
  · intro sim hv
    obtain ⟨i0, sc0, sc1, hi0, hm, hmin, hleast, h01, hsec, hatt, hres⟩ :=
      coherenceCore_spec sim sections h3
    exact ⟨i0, sc0, sc1, hi0, hm, hmin, hleast, h01, hsec, hatt, by rw [hok sim hv, hres]⟩

/-- C4 witness: a failing vectorization on a concrete three-section input
leaves it unchanged. -/
theorem C4_witness :
    ensure_content_coherence (fun _ => .error ()) [secA, secB, secC] = [secA, secB, secC] :=
  (C4 (fun _ => .error ()) [secA, secB, secC] (by decide)).2.1 () rfl

/-! ### Claim C7 -/

/-- C7: fail-open validation.  For any section of the input, if its
generative-text request fails, or succeeds with a response containing no
parsable numeric token, the section is kept in the per-section validated
result (`validated_sections`) rather than dropped. -/
theorem C7 (respond : String → Chars → Chars → Except Unit String) (title : String)
    (sections : List Section) (s : Section) (hs : s ∈ sections) :
    (respond title s.title (s.content.take 1000) = .error () →
      s ∈ (validatePass respond title sections).2) ∧
    ∀ resp, respond title s.title (s.content.take 1000) = .ok resp →
      findFirstNumber (pyStrip resp.data) = none →
      s ∈ (validatePass respond title sections).2 := by
  revert hs
  induction sections with
  | nil => intro hs; simp at hs
  | cons a rest ih =>
    intro hs
    rcases List.mem_cons.mp hs with rfl | hs2
    · constructor
      · intro herr
        simp only [validatePass, herr]
        exact List.mem_cons_self _ _
      · intro resp hok hnone
        simp only [validatePass, hok, hnone]
        exact List.mem_cons_self _ _
    · have ihh := ih hs2
      constructor
      · intro herr
        simp only [validatePass]
        cases hr : respond title a.title (a.content.take 1000) with
        | error e =>
          simp only [hr]
          exact List.mem_cons_of_mem _ (ihh.1 herr)
        | ok resp =>
          cases hn : findFirstNumber (pyStrip resp.data) with
          | none =>
            simp only [hr, hn]
            exact List.mem_cons_of_mem _ (ihh.1 herr)
          | some q =>
            by_cases h6 : (6:ℚ) ≤ q
            · simp only [hr, hn, if_pos h6]
              exact List.mem_cons_of_mem _ (ihh.1 herr)
            · simp only [hr, hn, if_neg h6]
              exact ihh.1 herr
      · intro resp2 hok hnone
        simp only [validatePass]
        cases hr : respond title a.title (a.content.take 1000) with
        | error e =>
          simp only [hr]
          exact List.mem_cons_of_mem _ (ihh.2 resp2 hok hnone)
        | ok resp =>
          cases hn : findFirstNumber (pyStrip resp.data) with
          | none =>
            simp only [hr, hn]
            exact List.mem_cons_of_mem _ (ihh.2 resp2 hok hnone)
          | some q =>
            by_cases h6 : (6:ℚ) ≤ q
            · simp only [hr, hn, if_pos h6]
              exact List.mem_cons_of_mem _ (ihh.2 resp2 hok hnone)
            · simp only [hr, hn, if_neg h6]
              exact ihh.2 resp2 hok hnone

/-- C7 witness: a failing request keeps the concrete section. -/
theorem C7_witness : secA ∈ (validatePass (fun _ _ _ => .error ()) "T" [secA]).2 :=
  (C7 (fun _ _ _ => .error ()) "T" [secA] secA (by decide)).1 rfl

/-! ### Claim C8 -/

theorem annotateSim_annotateSim (sim : Chars → ℚ) (s : Section) :
    annotateSim sim (annotateSim sim s) = annotateSim sim s := rfl

theorem mem_annotatedOf_fix (tfidfCos : String → String → Except Unit ℚ)
    (topics : List (String × ℚ)) (sections : List Section) :
    ∀ x ∈ annotatedOf tfidfCos topics sections,
      annotateSim (simOf tfidfCos topics) x = x := by
  intro x hx
  rw [annotatedOf] at hx
  obtain ⟨s0, _, rfl⟩ := List.mem_map.mp hx
  exact annotateSim_annotateSim _ _

/-- C8: idempotence of `filter_irrelevant_sections` as a set transformation.
Re-running the filter on its own output, with the same topic map and
threshold, keeps exactly the same set of sections: recomputed similarities
coincide (they depend only on content and topic map), so either every kept
section passes the threshold again, or the top-3 fallback re-fires and
re-selects the same 3 sections (possibly reordered). -/
theorem C8 (tfidfCos : String → String → Except Unit ℚ) (topics : List (String × ℚ))
    (thr : ℚ) (sections : List Section) :
    ∀ x, x ∈ filter_irrelevant_sections tfidfCos topics thr
        (filter_irrelevant_sections tfidfCos topics thr sections) ↔
      x ∈ filter_irrelevant_sections tfidfCos topics thr sections := by
  intro x
  set F := filter_irrelevant_sections tfidfCos topics thr sections with hFdef
  have hFA : ∀ y ∈ F, y ∈ annotatedOf tfidfCos topics sections := by
    intro y hy
    rw [hFdef, filter_irrelevant_sections] at hy
    split at hy
    · exact (pySortedRev_perm _ _).mem_iff.mp (List.mem_of_mem_take hy)
    · rw [relevantOf] at hy
      exact (List.mem_filter.mp hy).1
  have hfix : ∀ y ∈ F, annotateSim (simOf tfidfCos topics) y = y :=
    fun y hy => mem_annotatedOf_fix tfidfCos topics sections y (hFA y hy)
  have hAF : annotatedOf tfidfCos topics F = F := by
    rw [annotatedOf]
    calc F.map (annotateSim (simOf tfidfCos topics)) = F.map id :=
        List.map_congr_left hfix
    _ = F := List.map_id F
  have hRF : relevantOf tfidfCos topics thr F =
      F.filter fun s => decide (thr ≤ simOf tfidfCos topics s.content) := by
    rw [relevantOf, hAF]
  by_cases hc : (relevantOf tfidfCos topics thr sections).length < 3 ∧ 3 ≤ sections.length
  · have hFeq : F = (pySortedRev (fun s => s.topic_similarity.getD 0)
        (annotatedOf tfidfCos topics sections)).take 3 := by
      rw [hFdef, filter_irrelevant_sections, if_pos hc]
    have hFlen : F.length = 3 := by
      rw [hFeq, List.length_take, pySortedRev_length, annotatedOf_length]
      omega
    by_cases hc2 : (relevantOf tfidfCos topics thr F).length < 3
    · have hcond2 : (relevantOf tfidfCos topics thr F).length < 3 ∧ 3 ≤ F.length :=
        ⟨hc2, by rw [hFlen]⟩
      have hF2 : filter_irrelevant_sections tfidfCos topics thr F =
          (pySortedRev (fun s => s.topic_similarity.getD 0)
            (annotatedOf tfidfCos topics F)).take 3 := by
        rw [filter_irrelevant_sections, if_pos hcond2]
      rw [hF2, hAF]
      have hlen3 : (pySortedRev (fun s => s.topic_similarity.getD 0) F).length = 3 := by
        rw [pySortedRev_length, hFlen]
      rw [List.take_of_length_le (le_of_eq hlen3)]
      exact (pySortedRev_perm _ _).mem_iff
    · have hcond2 : ¬ ((relevantOf tfidfCos topics thr F).length < 3 ∧ 3 ≤ F.length) :=
        fun h => hc2 h.1
      have hF2 : filter_irrelevant_sections tfidfCos topics thr F =
          relevantOf tfidfCos topics thr F := by
        rw [filter_irrelevant_sections, if_neg hcond2]
      push_neg at hc2
      have hsub : List.Sublist (relevantOf tfidfCos topics thr F) F := by
        rw [hRF]
        exact List.filter_sublist _
      have heq : relevantOf tfidfCos topics thr F = F := by
        refine hsub.eq_of_length ?_
        have h1 := hsub.length_le
        rw [hFlen] at h1 ⊢
        omega
      rw [hF2, heq]
  · have hFeq : F = relevantOf tfidfCos topics thr sections := by
      rw [hFdef, filter_irrelevant_sections, if_neg hc]
    have hpass : ∀ y ∈ F, (decide (thr ≤ simOf tfidfCos topics y.content)) = true := by
      intro y hy
      rw [hFeq, relevantOf] at hy
      exact (List.mem_filter.mp hy).2
    have hR2 : relevantOf tfidfCos topics thr F = F := by
      rw [hRF]
      exact List.filter_eq_self.mpr hpass
    have hcond2 : ¬ ((relevantOf tfidfCos topics thr F).length < 3 ∧ 3 ≤ F.length) := by
      rw [hR2]
      rintro ⟨h1, h2⟩
      omega
    have hF2 : filter_irrelevant_sections tfidfCos topics thr F =
        relevantOf tfidfCos topics thr F := by
      rw [filter_irrelevant_sections, if_neg hcond2]
    rw [hF2, hR2]

/-! ### Claim C10 -/

/-- A generative-text model for which the request on section `"A"` raises
and every other section scores `2` (below the keep threshold 6). -/
def c10Resp : String → Chars → Chars → Except Unit String := fun _ t _ =>
  if t = "A".toList then .error () else .ok "2"

def c10Secs : List Section := [secA, secB, secC, secD]

/-- C10: the top-3 fallback of `validate_content_against_title` re-sorts the
full original input list — the first component of the pass, one (annotated)
record per input section — by `title_relevance` with default 0 for sections
never annotated; consequently a section whose request failed (kept fail-open
by the per-section pass, but never annotated) ranks as 0 there and can be
excluded from the final result, as the concrete run shows: `secA` is kept by
the pass yet absent from the returned top 3. -/
theorem C10 :
    (∀ (respond : String → Chars → Chars → Except Unit String) (title : String)
        (sections : List Section),
      ((validatePass respond title sections).1).length = sections.length) ∧
    (∀ (respond : String → Chars → Chars → Except Unit String) (title : String)
        (sections : List Section),
      (validatePass respond title sections).2.length < 3 → 3 ≤ sections.length →
      validate_content_against_title respond title sections =
        (pySortedRev (fun s => s.title_relevance.getD 0)
          (validatePass respond title sections).1).take 3) ∧
    secA ∈ (validatePass c10Resp "T" c10Secs).2 ∧
    secA ∉ validate_content_against_title c10Resp "T" c10Secs := by
  refine ⟨validatePass_fst_length, ?_, ?_, ?_⟩
  · intro respond title sections h1 h2
    rw [validate_content_against_title, if_pos ⟨h1, h2⟩]
  · decide
  · decide

/-- C10 witness: the fallback equation instantiated at the concrete run. -/
theorem C10_witness :
    validate_content_against_title c10Resp "T" c10Secs =
      (pySortedRev (fun s => s.title_relevance.getD 0)
        (validatePass c10Resp "T" c10Secs).1).take 3 :=
  C10.2.1 c10Resp "T" c10Secs (by decide) (by decide)
